import Mathlib

/-!
Verification development for the `sparql-transactional-test` harness.

The Rust sources under `src/` are shallowly embedded: Rust `String`/`&str`
values are lists of characters, fallible operations return `Option`/`Except`,
and the random/IO-driven parts (the shuffle, the HTTP exchange, the file
system) are passed in explicitly as parameters describing their outcome.
-/

/-- Rust `String` / `&str`, modelled as a list of characters. -/
abbrev RStr := List Char

/-- Splits a character list at every newline character, keeping every
(possibly empty) part, including the part after the last newline.
This is the raw splitting underlying Rust `str::lines`. -/
def splitNl : RStr → List RStr
  | [] => [[]]
  | c :: cs =>
    if c = '\n' then [] :: splitNl cs
    else (c :: (splitNl cs).headI) :: (splitNl cs).tail

/-- Drops a single trailing carriage return from a line, as Rust
`str::lines` does for lines ending in a CRLF sequence. -/
def stripCr (l : RStr) : RStr :=
  if l.getLast? = some '\r' then l.dropLast else l

/-- Rust `str::lines`: split at every newline, the final line ending being
optional (a trailing newline does not produce an empty final line), and
strip one trailing carriage return from every line. -/
def rustLines (s : RStr) : List RStr :=
  let parts := splitNl s
  let kept := if parts.getLast? = some [] then parts.dropLast else parts
  kept.map stripCr

/-- Rust `str::trim`: remove leading and trailing whitespace. The model
uses `Char.isWhitespace` (space, tab, CR, LF), which covers the whitespace
occurring in N-Triples payloads. -/
def trim (l : RStr) : RStr :=
  ((l.dropWhile Char.isWhitespace).reverse.dropWhile Char.isWhitespace).reverse

/-- The collection step `flat_map(|line| [line, "\n"]).collect()` of
`normalize_dbstate`: every line followed by a single newline. -/
def joinNl (ls : List RStr) : RStr :=
  ls.flatMap (fun line => line ++ ['\n'])

/-- The function `normalize_dbstate` of `src/update_worker.rs`: trim every line, sort the
trimmed lines lexicographically, and emit each line followed by one
newline. Rust's stable `sort` on strings is modelled by `insertionSort`
under the lexicographic order; both return the unique sorted permutation
of the input, so they agree extensionally. -/
def normalize_dbstate (state : RStr) : RStr :=
  joinNl (((rustLines state).map trim).insertionSort (· ≤ ·))

/-- C1: canonicalization is line-permutation-invariant. If the lines of
`y` are a permutation of the lines of `x`, then `normalize_dbstate y`
equals `normalize_dbstate x`, so two responses differing only in line
order compare equal. -/
theorem c1_normalize_permutation_invariant (x y : RStr)
    (h : List.Perm (rustLines y) (rustLines x)) :
    normalize_dbstate y = normalize_dbstate x := by
  have hp : List.Perm ((rustLines y).map trim) ((rustLines x).map trim) := h.map trim
  have e : ((rustLines y).map trim).insertionSort (· ≤ ·)
      = ((rustLines x).map trim).insertionSort (· ≤ ·) :=
    List.eq_of_perm_of_sorted
      (((List.perm_insertionSort _ _).trans hp).trans (List.perm_insertionSort _ _).symm)
      (List.sorted_insertionSort _ _) (List.sorted_insertionSort _ _)
  unfold normalize_dbstate
  rw [e]

/-- Witness for C1 at a concrete permuted pair of N-Triples bodies. -/
theorem c1_witness :
    List.Perm (rustLines ['b', '\n', 'a', '\n']) (rustLines ['a', '\n', 'b'])
      ∧ normalize_dbstate ['b', '\n', 'a', '\n'] = normalize_dbstate ['a', '\n', 'b'] :=
  ⟨by decide, c1_normalize_permutation_invariant _ _ (by decide)⟩

theorem splitNl_ne_nil : ∀ s : RStr, splitNl s ≠ []
  | [] => by simp [splitNl]
  | c :: cs => by
    by_cases h : c = '\n' <;> simp [splitNl, h]

theorem mem_splitNl_no_nl : ∀ (s : RStr) (p : RStr), p ∈ splitNl s → '\n' ∉ p
  | [], p => by
    intro hp
    simp [splitNl] at hp
    simp [hp]
  | c :: cs, p => by
    intro hp
    obtain ⟨q, qs, hq⟩ := List.exists_cons_of_ne_nil (splitNl_ne_nil cs)
    by_cases h : c = '\n'
    · simp [splitNl, h] at hp
      rcases hp with rfl | hp
      · simp
      · exact mem_splitNl_no_nl cs p hp
    · simp [splitNl, h, hq, List.headI] at hp
      have hqmem : q ∈ splitNl cs := by rw [hq]; exact List.mem_cons_self _ _
      rcases hp with rfl | hp
      · intro hmem
        rcases List.mem_cons.1 hmem with rfl | hmem
        · exact h rfl
        · exact mem_splitNl_no_nl cs q hqmem hmem
      · have hpmem : p ∈ splitNl cs := by
          rw [hq]; exact List.mem_cons_of_mem _ hp
        exact mem_splitNl_no_nl cs p hpmem

theorem splitNl_append_nl (l s : RStr) (hl : '\n' ∉ l) :
    splitNl (l ++ '\n' :: s) = l :: splitNl s := by
  induction l with
  | nil => simp [splitNl]
  | cons c cs ih =>
    have hc : c ≠ '\n' := fun h => hl (h ▸ List.mem_cons_self c cs)
    have hcs : '\n' ∉ cs := fun h => hl (List.mem_cons_of_mem _ h)
    show splitNl (c :: (cs ++ '\n' :: s)) = _
    simp only [splitNl, if_neg hc]
    rw [ih hcs]
    simp [List.headI]

theorem splitNl_joinNl (ls : List RStr) (h : ∀ l ∈ ls, '\n' ∉ l) :
    splitNl (joinNl ls) = ls ++ [[]] := by
  induction ls with
  | nil => simp [joinNl, splitNl]
  | cons l ls ih =>
    have hl : '\n' ∉ l := h l (List.mem_cons_self _ _)
    have hls : ∀ m ∈ ls, '\n' ∉ m := fun m hm => h m (List.mem_cons_of_mem _ hm)
    have : joinNl (l :: ls) = l ++ '\n' :: joinNl ls := by simp [joinNl]
    rw [this, splitNl_append_nl _ _ hl, ih hls]
    simp

theorem rustLines_joinNl (ls : List RStr) (h1 : ∀ l ∈ ls, '\n' ∉ l)
    (h2 : ∀ l ∈ ls, l.getLast? ≠ some '\r') :
    rustLines (joinNl ls) = ls := by
  have hlast : (ls ++ [([] : RStr)]).getLast? = some [] := by
    simp [List.getLast?_concat]
  show (if (splitNl (joinNl ls)).getLast? = some [] then (splitNl (joinNl ls)).dropLast
      else splitNl (joinNl ls)).map stripCr = ls
  rw [splitNl_joinNl ls h1, if_pos hlast, List.dropLast_concat]
  have : ∀ l ∈ ls, stripCr l = l := by
    intro l hl
    simp [stripCr, h2 l hl]
  calc ls.map stripCr = ls.map id := List.map_congr_left this
    _ = ls := List.map_id ls

theorem dropWhile_head_not (p : Char → Bool) :
    ∀ (l : RStr) (a : Char), (l.dropWhile p).head? = some a → p a = false
  | [], a => by simp [List.dropWhile]
  | c :: cs, a => by
    by_cases h : p c
    · simpa [List.dropWhile, h] using dropWhile_head_not p cs a
    · simp only [List.dropWhile, h, Bool.false_eq_true, if_false, List.head?_cons]
      rintro ⟨rfl⟩
      simpa using h

theorem dropWhile_eq_self_of_head (p : Char → Bool) (l : RStr)
    (h : ∀ a, l.head? = some a → p a = false) : l.dropWhile p = l := by
  cases l with
  | nil => simp
  | cons c cs => simp [List.dropWhile, h c rfl]

theorem getLast?_dropWhile (p : Char → Bool) :
    ∀ l : RStr, l.dropWhile p ≠ [] → (l.dropWhile p).getLast? = l.getLast?
  | [], h => by simp at h
  | c :: cs, h => by
    by_cases hp : p c
    · have hdw : (c :: cs).dropWhile p = cs.dropWhile p := by simp [List.dropWhile, hp]
      rw [hdw] at h ⊢
      have hcs : cs ≠ [] := by
        intro hnil
        rw [hnil] at h
        simp at h
      obtain ⟨d, ds, rfl⟩ := List.exists_cons_of_ne_nil hcs
      rw [getLast?_dropWhile p (d :: ds) h, List.getLast?_cons_cons]
    · simp [List.dropWhile, hp]

theorem trim_subset (l : RStr) : ∀ a, a ∈ trim l → a ∈ l := by
  intro a ha
  unfold trim at ha
  rw [List.mem_reverse] at ha
  have h1 := (List.dropWhile_sublist (l := (l.dropWhile Char.isWhitespace).reverse)
    Char.isWhitespace).subset ha
  rw [List.mem_reverse] at h1
  exact (List.dropWhile_sublist Char.isWhitespace).subset h1

theorem trim_head_not_ws (l : RStr) (a : Char) (h : (trim l).head? = some a) :
    a.isWhitespace = false := by
  unfold trim at h
  rw [List.head?_reverse] at h
  have hne : (l.dropWhile Char.isWhitespace).reverse.dropWhile Char.isWhitespace ≠ [] := by
    intro hnil
    rw [hnil] at h
    simp at h
  rw [getLast?_dropWhile _ _ hne] at h
  rw [← List.head?_reverse, List.reverse_reverse] at h
  exact dropWhile_head_not _ _ _ h

theorem trim_getLast_not_ws (l : RStr) (a : Char) (h : (trim l).getLast? = some a) :
    a.isWhitespace = false := by
  unfold trim at h
  rw [← List.head?_reverse, List.reverse_reverse] at h
  exact dropWhile_head_not _ _ _ h

theorem trim_idem (l : RStr) : trim (trim l) = trim l := by
  have h1 : (trim l).dropWhile Char.isWhitespace = trim l :=
    dropWhile_eq_self_of_head _ _ (trim_head_not_ws l)
  have h2 : (trim l).reverse.dropWhile Char.isWhitespace = (trim l).reverse := by
    refine dropWhile_eq_self_of_head _ _ ?_
    intro a ha
    rw [List.head?_reverse] at ha
    exact trim_getLast_not_ws l a ha
  show (((trim l).dropWhile Char.isWhitespace).reverse.dropWhile Char.isWhitespace).reverse
      = trim l
  rw [h1, h2, List.reverse_reverse]

theorem trim_getLast_ne_cr (l : RStr) : (trim l).getLast? ≠ some '\r' := by
  intro h
  have := trim_getLast_not_ws l '\r' h
  simp at this

/-- C2: canonicalization is idempotent: `normalize_dbstate` applied twice
equals `normalize_dbstate` applied once. -/
theorem c2_normalize_idempotent (x : RStr) :
    normalize_dbstate (normalize_dbstate x) = normalize_dbstate x := by
  have hmem : ∀ l ∈ ((rustLines x).map trim).insertionSort (· ≤ ·), ∃ t, l = trim t := by
    intro l hl
    rw [List.mem_insertionSort] at hl
    obtain ⟨t, _, rfl⟩ := List.mem_map.1 hl
    exact ⟨t, rfl⟩
  have h1 : ∀ l ∈ ((rustLines x).map trim).insertionSort (· ≤ ·), '\n' ∉ l := by
    intro l hl hnl
    rw [List.mem_insertionSort] at hl
    obtain ⟨t, ht, rfl⟩ := List.mem_map.1 hl
    have htmem : '\n' ∈ t := trim_subset t '\n' hnl
    obtain ⟨p, hp, rfl⟩ := List.mem_map.1 (by simpa [rustLines] using ht)
    have hsc : stripCr p = p.dropLast ∨ stripCr p = p := by
      unfold stripCr
      split
      · exact Or.inl rfl
      · exact Or.inr rfl
    have hpin : '\n' ∈ p := by
      rcases hsc with he | he
      · exact (List.dropLast_sublist p).subset (he ▸ htmem)
      · exact he ▸ htmem
    have hpmem : p ∈ splitNl x := by
      by_cases hif : (splitNl x).getLast? = some []
      · rw [if_pos hif] at hp
        exact (List.dropLast_sublist _).subset hp
      · rwa [if_neg hif] at hp
    exact mem_splitNl_no_nl x p hpmem hpin
  have h2 : ∀ l ∈ ((rustLines x).map trim).insertionSort (· ≤ ·),
      l.getLast? ≠ some '\r' := by
    intro l hl
    obtain ⟨t, rfl⟩ := hmem l hl
    exact trim_getLast_ne_cr t
  have hre : rustLines (joinNl (((rustLines x).map trim).insertionSort (· ≤ ·)))
      = ((rustLines x).map trim).insertionSort (· ≤ ·) :=
    rustLines_joinNl _ h1 h2
  have htr : (((rustLines x).map trim).insertionSort (· ≤ ·)).map trim
      = ((rustLines x).map trim).insertionSort (· ≤ ·) := by
    have : ∀ l ∈ ((rustLines x).map trim).insertionSort (· ≤ ·), trim l = id l := by
      intro l hl
      obtain ⟨t, rfl⟩ := hmem l hl
      simpa using trim_idem t
    rw [List.map_congr_left this, List.map_id]
  have hsorted : List.Sorted (· ≤ ·) (((rustLines x).map trim).insertionSort (· ≤ ·)) :=
    List.sorted_insertionSort _ _
  show joinNl (((rustLines (normalize_dbstate x)).map trim).insertionSort (· ≤ ·))
      = normalize_dbstate x
  rw [show normalize_dbstate x
      = joinNl (((rustLines x).map trim).insertionSort (· ≤ ·)) from rfl,
    hre, htr, hsorted.insertionSort_eq]

/-- The enum `OperationKind` of `src/update_worker.rs` (serde-renamed to
SCREAMING_SNAKE_CASE on the wire). -/
inductive OperationKind
  | insertData
  | deleteData
  | gspPost
  | gspPut
  | gspDelete
  deriving DecidableEq

/-- The struct `UpdateOperation` of `src/update_worker.rs`, the deserialized form of one
`op_<i>.json` script file. -/
structure UpdateOperation where
  subject : RStr
  operation : OperationKind
  triples : RStr
  validation_default : RStr
  validation_named : RStr
  deriving DecidableEq

/-- The method `UpdateOperation::normalize`: canonicalize both recorded expectations. -/
def UpdateOperation.normalize (op : UpdateOperation) : UpdateOperation :=
  { op with
    validation_default := normalize_dbstate op.validation_default
    validation_named := normalize_dbstate op.validation_named }

/-- The JSON data model (`serde_json::Value`). -/
inductive Json
  | null
  | bool (b : Bool)
  | num (q : ℚ)
  | str (s : RStr)
  | arr (elems : List Json)
  | obj (fields : List (RStr × Json))

/-- The first value bound to `key` in a JSON object's field list. -/
def jsonLookup (key : RStr) : List (RStr × Json) → Option Json
  | [] => none
  | (k, v) :: fields => if k = key then some v else jsonLookup key fields

/-- serde's deserialization of `OperationKind` under
`rename_all = "SCREAMING_SNAKE_CASE"`: a JSON string holding one of the
five renamed variant names. -/
def OperationKind.deserialize : Json → Option OperationKind
  | .str s =>
    if s = "INSERT_DATA".toList then some .insertData
    else if s = "DELETE_DATA".toList then some .deleteData
    else if s = "GSP_POST".toList then some .gspPost
    else if s = "GSP_PUT".toList then some .gspPut
    else if s = "GSP_DELETE".toList then some .gspDelete
    else none
  | _ => none

/-- The serde-derived deserializer for `UpdateOperation`: a JSON object
providing all five struct fields with the right types; unknown extra
fields are ignored, as serde does by default. -/
def UpdateOperation.deserialize (j : Json) : Option UpdateOperation :=
  match j with
  | .obj fields =>
    match jsonLookup "subject".toList fields, jsonLookup "operation".toList fields,
        jsonLookup "triples".toList fields, jsonLookup "validation_default".toList fields,
        jsonLookup "validation_named".toList fields with
    | some (.str subject), some opJson, some (.str triples),
        some (.str vdefault), some (.str vnamed) =>
      match OperationKind.deserialize opJson with
      | some operation => some ⟨subject, operation, triples, vdefault, vnamed⟩
      | none => none
    | _, _, _, _, _ => none
  | _ => none

/-- The outcome of `File::open` plus reading for one `op_<i>.json`, as
seen by `UpdateWorker::new`: the file is absent (`io::ErrorKind::NotFound`),
opening failed some other way, or its JSON content was read. -/
inductive OpFile
  | missing
  | ioError
  | content (j : Json)

/-- The loading loop of `UpdateWorker::new` (`for op in 0..`): open
`op_0.json`, `op_1.json`, …; `NotFound` breaks the loop, any other open
error or a deserialization failure aborts construction, and every parsed
operation is pushed after `normalize`. Indices beyond the end of the
list are absent. -/
def loadOperations : List OpFile → Except Unit (List UpdateOperation)
  | [] => .ok []
  | .missing :: _ => .ok []
  | .ioError :: _ => .error ()
  | .content j :: rest =>
    match UpdateOperation.deserialize j with
    | none => .error ()
    | some update => (loadOperations rest).map (update.normalize :: ·)

/-- The constructor `UpdateWorker::new`: run the loading loop, then reject an empty
script (`anyhow::ensure!(!queries.is_empty(), ..)`). -/
def UpdateWorker.new (files : List OpFile) : Except Unit (List UpdateOperation) :=
  match loadOperations files with
  | .ok [] => .error ()
  | .ok queries => .ok queries
  | .error e => .error e

theorem loadOperations_parsed (js : List Json) (ops : List UpdateOperation)
    (rest : List OpFile) (h : js.map UpdateOperation.deserialize = ops.map some) :
    loadOperations (js.map OpFile.content ++ OpFile.missing :: rest)
      = .ok (ops.map UpdateOperation.normalize) := by
  induction js generalizing ops with
  | nil =>
    have : ops = [] := by
      cases ops with
      | nil => rfl
      | cons o os => simp at h
    simp [this, loadOperations]
  | cons j js ih =>
    cases ops with
    | nil => simp at h
    | cons o os =>
      simp only [List.map_cons, List.cons.injEq] at h
      simp only [List.map_cons, List.cons_append, loadOperations, h.1]
      rw [show (List.map OpFile.content js).append (OpFile.missing :: rest)
          = List.map OpFile.content js ++ OpFile.missing :: rest from rfl, ih os h.2]
      rfl

/-- C6: `UpdateWorker` construction reads `op_0.json`, `op_1.json`, … in
order and stops at the first missing index; if every existing file
parses (to the operations `ops`), construction fails exactly when that
contiguous prefix is empty and otherwise succeeds with the script being
exactly those operations (each canonicalized by `normalize`), whatever
lies at the indices past the first missing one. -/
theorem c6_construction_contiguous (js : List Json) (ops : List UpdateOperation)
    (rest : List OpFile) (h : js.map UpdateOperation.deserialize = ops.map some) :
    UpdateWorker.new (js.map OpFile.content ++ OpFile.missing :: rest)
      = if ops.isEmpty then .error () else .ok (ops.map UpdateOperation.normalize) := by
  unfold UpdateWorker.new
  rw [loadOperations_parsed js ops rest h]
  cases ops with
  | nil => simp
  | cons o os => simp

/-- A sample script file of the shape the code actually deserializes. -/
def sampleOpJson : Json :=
  Json.obj [("subject".toList, Json.str "s".toList),
    ("operation".toList, Json.str "INSERT_DATA".toList),
    ("triples".toList, Json.str "t".toList),
    ("validation_default".toList, Json.str "d".toList),
    ("validation_named".toList, Json.str "n".toList)]

/-- The operation `sampleOpJson` deserializes to. -/
def sampleOp : UpdateOperation :=
  ⟨"s".toList, OperationKind.insertData, "t".toList, "d".toList, "n".toList⟩

/-- Witness for C6 on a one-file script directory. -/
theorem c6_witness :
    [sampleOpJson].map UpdateOperation.deserialize = [sampleOp].map some
      ∧ UpdateWorker.new ([sampleOpJson].map OpFile.content
          ++ OpFile.missing :: [OpFile.ioError])
        = if [sampleOp].isEmpty then .error ()
          else .ok ([sampleOp].map UpdateOperation.normalize) :=
  ⟨by decide, c6_construction_contiguous _ _ _ (by decide)⟩

/-- A script file of the shape claimed in the spec (fields `endpoint`,
`method`, `query_params`, `headers`, `body`, `validate`). -/
def specShapedOpJson : Json :=
  Json.obj [("endpoint".toList, Json.str "UPDATE".toList),
    ("method".toList, Json.str "POST".toList),
    ("query_params".toList, Json.obj []),
    ("headers".toList, Json.obj []),
    ("body".toList, Json.str []),
    ("validate".toList, Json.obj [("query".toList, Json.str []),
      ("expected".toList, Json.str [])])]

/-- Counterexample for C8: a file of exactly the layout the spec
describes does not deserialize, and `UpdateWorker` construction rejects
a directory holding it. -/
theorem c8_counterexample :
    UpdateOperation.deserialize specShapedOpJson = none
      ∧ UpdateWorker.new [OpFile.content specShapedOpJson] = .error () := by
  constructor
  · rfl
  · rfl

/-- C8 (amended): a script file deserializes exactly when it is a JSON
object binding `subject`, `triples`, `validation_default` and
`validation_named` to strings and `operation` to one of the five
operation-kind tags; extra fields are ignored. Construction accepts a
script directory of such files. -/
theorem c8_amended_shape :
    (∀ j : Json, (UpdateOperation.deserialize j).isSome ↔
      ∃ fields subject opJson kind triples vdefault vnamed,
        j = Json.obj fields
          ∧ jsonLookup "subject".toList fields = some (Json.str subject)
          ∧ jsonLookup "operation".toList fields = some opJson
          ∧ OperationKind.deserialize opJson = some kind
          ∧ jsonLookup "triples".toList fields = some (Json.str triples)
          ∧ jsonLookup "validation_default".toList fields = some (Json.str vdefault)
          ∧ jsonLookup "validation_named".toList fields = some (Json.str vnamed))
      ∧ ∀ (j : Json) (op : UpdateOperation), UpdateOperation.deserialize j = some op →
        UpdateWorker.new [OpFile.content j, OpFile.missing] = .ok [op.normalize] := by
  constructor
  · intro j
    constructor
    · intro h
      cases j with
      | obj fields =>
        simp only [UpdateOperation.deserialize] at h
        split at h
        · rename_i subject opJson triples vdefault vnamed h1 h2 h3 h4 h5
          split at h
          · rename_i kind hk
            exact ⟨fields, subject, opJson, kind, triples, vdefault, vnamed,
              rfl, h1, h2, hk, h3, h4, h5⟩
          · simp at h
        · simp at h
      | null => simp [UpdateOperation.deserialize] at h
      | bool b => simp [UpdateOperation.deserialize] at h
      | num q => simp [UpdateOperation.deserialize] at h
      | str s => simp [UpdateOperation.deserialize] at h
      | arr elems => simp [UpdateOperation.deserialize] at h
    · rintro ⟨fields, subject, opJson, kind, triples, vdefault, vnamed,
        rfl, h1, h2, hk, h3, h4, h5⟩
      simp only [UpdateOperation.deserialize, h1, h2, h3, h4, h5, hk]
      rfl
  · intro j op h
    unfold UpdateWorker.new loadOperations
    rw [h]
    rfl

/-- Witness for C8's amended statement: the sample file is accepted. -/
theorem c8_witness :
    UpdateWorker.new [OpFile.content sampleOpJson, OpFile.missing]
      = .ok [sampleOp.normalize] :=
  c8_amended_shape.2 sampleOpJson sampleOp (by rfl)

/-- The HTTP verbs used by the workers. -/
inductive HttpMethod
  | get
  | post
  | put
  | delete
  deriving DecidableEq

/-- The three endpoint URLs held by `UpdateWorker`. -/
inductive TargetEndpoint
  | query
  | update
  | graphStore
  deriving DecidableEq

/-- The observable shape of one outgoing HTTP request: verb, target URL,
`Content-Type` header, query parameters and body. -/
structure HttpRequest where
  method : HttpMethod
  target : TargetEndpoint
  contentType : Option RStr
  queryParams : List (RStr × RStr)
  body : Option RStr
  deriving DecidableEq

/-- Rust `str::trim_start_matches(c)`: repeatedly remove a leading `c`. -/
def trimStartMatches (c : Char) (s : RStr) : RStr :=
  s.dropWhile (· = c)

/-- Rust `str::trim_end_matches(c)`: repeatedly remove a trailing `c`. -/
def trimEndMatches (c : Char) (s : RStr) : RStr :=
  (s.reverse.dropWhile (· = c)).reverse

/-- The `graph=` query-parameter value used by the GSP arms of
`issue_update`: the subject with leading `<` and trailing `>` stripped. -/
def gspGraphParam (subject : RStr) : RStr :=
  trimEndMatches '>' (trimStartMatches '<' subject)

/-- The request constructed by `UpdateWorker::issue_update` for one
operation (the `match operation` block in `src/update_worker.rs`).
Literal braces of the Rust format strings are written as the escapes
\x7b and \x7d. -/
def UpdateWorker.issue_update_request (op : UpdateOperation) : HttpRequest :=
  match op.operation with
  | .deleteData =>
    { method := .post
      target := .update
      contentType := some "application/sparql-update".toList
      queryParams := []
      body := some ("DELETE DATA \x7b ".toList ++ op.triples ++ " \x7d".toList) }
  | .insertData =>
    { method := .post
      target := .update
      contentType := some "application/sparql-update".toList
      queryParams := []
      body := some ("INSERT DATA \x7b ".toList ++ op.triples
        ++ " \x7d; INSERT DATA \x7b GRAPH ".toList ++ op.subject
        ++ " \x7b ".toList ++ op.triples ++ " \x7d \x7d".toList) }
  | .gspDelete =>
    { method := .delete
      target := .graphStore
      contentType := none
      queryParams := [("graph".toList, gspGraphParam op.subject)]
      body := none }
  | .gspPost =>
    { method := .post
      target := .graphStore
      contentType := some "application/n-triples".toList
      queryParams := [("graph".toList, gspGraphParam op.subject)]
      body := some op.triples }
  | .gspPut =>
    { method := .put
      target := .graphStore
      contentType := some "application/n-triples".toList
      queryParams := [("graph".toList, gspGraphParam op.subject)]
      body := some op.triples }

/-- C9: an `INSERT_DATA` operation is issued as a single POST to the
update endpoint whose `application/sparql-update` body is the compound
update inserting the triples into the default graph and into the named
graph identified by the operation's subject, in one request. -/
theorem c9_insert_data_compound (op : UpdateOperation)
    (h : op.operation = OperationKind.insertData) :
    UpdateWorker.issue_update_request op =
      { method := HttpMethod.post
        target := TargetEndpoint.update
        contentType := some "application/sparql-update".toList
        queryParams := []
        body := some ("INSERT DATA \x7b ".toList ++ op.triples
          ++ " \x7d; INSERT DATA \x7b GRAPH ".toList ++ op.subject
          ++ " \x7b ".toList ++ op.triples ++ " \x7d \x7d".toList) } := by
  unfold UpdateWorker.issue_update_request
  rw [h]

/-- Witness for C9 at the sample operation. -/
theorem c9_witness :
    sampleOp.operation = OperationKind.insertData
      ∧ UpdateWorker.issue_update_request sampleOp =
        { method := HttpMethod.post
          target := TargetEndpoint.update
          contentType := some "application/sparql-update".toList
          queryParams := []
          body := some ("INSERT DATA \x7b ".toList ++ sampleOp.triples
            ++ " \x7d; INSERT DATA \x7b GRAPH ".toList ++ sampleOp.subject
            ++ " \x7b ".toList ++ sampleOp.triples ++ " \x7d \x7d".toList) } :=
  ⟨rfl, c9_insert_data_compound sampleOp rfl⟩

/-- The enum `WorkerBehaviour` from `src/main.rs`: governs whether transport-level
failures are retried or reported. -/
inductive WorkerBehaviour
  | ignoreConnectionError
  | reportConnectionError
  deriving DecidableEq

/-- reqwest's `Response::error_for_status`: an `Err` exactly for the
client-error (4xx) and server-error (5xx) status classes. -/
def error_for_status_is_err (status : Nat) : Bool :=
  (400 ≤ status && status ≤ 499) || (500 ≤ status && status ≤ 599)

/-- Outcome of reading a response body to completion. -/
inductive BodyRead
  | ok (text : RStr)
  | readError
  deriving DecidableEq

/-- The observable outcome of awaiting one HTTP exchange: a transport
error while sending, or a response bearing a status code and a body-read
outcome. -/
inductive HttpExchange
  | sendError
  | response (status : Nat) (body : BodyRead)
  deriving DecidableEq

/-- Classification of `RandomReadWorker::measure_query`'s result, with
the duration abstracted: `Err(..)` (fatal, becomes `ReadFailed` in
`execute`), `Ok(None)` (the sample is dropped) or `Ok(Some(d))` (the
sample is recorded). -/
inductive MeasureOutcome
  | fatalError
  | droppedSample
  | recordedSample
  deriving DecidableEq

/-- The method `RandomReadWorker::measure_query` from `src/random_read_worker.rs`.
`error_for_status` is applied inside the `Ok` arm and its error returned
through `?` without consulting the behaviour; only transport errors
reach the behaviour check. -/
def measure_query (behav : WorkerBehaviour) (exchange : HttpExchange) : MeasureOutcome :=
  match exchange with
  | .sendError =>
    if behav = .ignoreConnectionError then .droppedSample else .fatalError
  | .response status body =>
    if error_for_status_is_err status then .fatalError
    else
      match body with
      | .ok _ => .recordedSample
      | .readError =>
        if behav = .ignoreConnectionError then .droppedSample else .fatalError

/-- Classification of the `match resp` at the end of
`UpdateWorker::issue_update`: `Err(..)` (fatal, becomes `UpdateFailed`
in `execute`), `Ok(Continue(()))` (the update is retried) or
`Ok(Break(()))` (the update succeeded). -/
inductive IssueOutcome
  | fatalError
  | retry
  | success
  deriving DecidableEq

/-- The response handling of `UpdateWorker::issue_update`: the body is
never read, so only the send outcome and status matter; `error_for_status`
again bypasses the behaviour check. -/
def issue_update_outcome (behav : WorkerBehaviour) (exchange : HttpExchange) : IssueOutcome :=
  match exchange with
  | .sendError => if behav = .ignoreConnectionError then .retry else .fatalError
  | .response status _ =>
    if error_for_status_is_err status then .fatalError else .success

/-- Counterexample for C5: a 304 response is not in the 2xx class, yet
`error_for_status` raises only on 4xx/5xx, so the reader records the
sample and the writer treats the mutation as succeeded — under either
behaviour the non-2xx response is not propagated as an error. -/
theorem c5_counterexample :
    (¬ (200 ≤ 304 ∧ 304 ≤ 299))
      ∧ measure_query .reportConnectionError (.response 304 (.ok [])) = .recordedSample
      ∧ measure_query .ignoreConnectionError (.response 304 (.ok [])) = .recordedSample
      ∧ issue_update_outcome .reportConnectionError (.response 304 (.ok [])) = .success
      ∧ issue_update_outcome .ignoreConnectionError (.response 304 (.ok [])) = .success := by
  refine ⟨by omega, rfl, rfl, rfl, rfl⟩

/-- C5 (amended): every response whose status is in the 4xx or 5xx class
is treated as a protocol error by both the reader's measurement and the
writer's mutation issue and propagated as a fatal error — no retry, no
dropped sample — under both behaviours. -/
theorem c5_amended_protocol_error (behav : WorkerBehaviour) (status : Nat)
    (body : BodyRead) (h4 : 400 ≤ status) (h5 : status ≤ 599) :
    measure_query behav (.response status body) = .fatalError
      ∧ issue_update_outcome behav (.response status body) = .fatalError := by
  have herr : error_for_status_is_err status = true := by
    unfold error_for_status_is_err
    rcases le_or_lt status 499 with hle | hgt
    · simp [h4, hle]
    · have h500 : 500 ≤ status := hgt
      simp [h500, h5]
  constructor
  · simp [measure_query, herr]
  · simp [issue_update_outcome, herr]

/-- Witness for C5's amended statement at status 500. -/
theorem c5_witness :
    (400 ≤ 500 ∧ 500 ≤ 599)
      ∧ measure_query .ignoreConnectionError (.response 500 (.ok [])) = .fatalError
      ∧ issue_update_outcome .ignoreConnectionError (.response 500 (.ok [])) = .fatalError :=
  ⟨⟨by omega, by omega⟩,
    (c5_amended_protocol_error .ignoreConnectionError 500 (.ok []) (by omega) (by omega)).1,
    (c5_amended_protocol_error .ignoreConnectionError 500 (.ok []) (by omega) (by omega)).2⟩

/-- The struct `FileSourceQueryGenerator` of `src/random_read_worker.rs`: the catalog in
original order, the working (shuffled) list, and the cursor. -/
structure FileSourceQueryGenerator where
  queries_original_order : List RStr
  queries : List RStr
  ix : Nat
  deriving DecidableEq

/-- The constructor `FileSourceQueryGenerator::new` on a query file whose content was
read successfully: keep the non-empty lines, store them twice (original
order and working copy), cursor at zero. -/
def FileSourceQueryGenerator.new (content : RStr) : FileSourceQueryGenerator :=
  let queries := (rustLines content).filter (fun l => !l.isEmpty)
  { queries_original_order := queries, queries := queries, ix := 0 }

/-- Rust `Iterator::position`: the index of the first element satisfying
the predicate. -/
def positionOf (p : RStr → Bool) : List RStr → Option Nat
  | [] => none
  | q :: qs => if p q then some 0 else (positionOf p qs).map (· + 1)

/-- The method `FileSourceQueryGenerator::next_query`. The in-place shuffle done
when the cursor is zero is supplied as `shuffled`, the reshuffled
working list (callers pass a permutation of `g.queries`). `none` models
a panic: `(self.ix + 1) % self.queries.len()` panics when the list is
empty, `&self.queries[cur_ix]` panics when the cursor is out of bounds,
and `position(..).unwrap()` panics when the returned query does not
occur in the original-order catalog. -/
def FileSourceQueryGenerator.next_query (g : FileSourceQueryGenerator)
    (shuffled : List RStr) :
    Option ((Option Nat × RStr) × FileSourceQueryGenerator) :=
  let cur_ix := g.ix
  let qs := if cur_ix = 0 then shuffled else g.queries
  if qs.length = 0 then none
  else
    match qs[cur_ix]? with
    | none => none
    | some ret_query =>
      match positionOf (fun q => q = ret_query) g.queries_original_order with
      | none => none
      | some orig_ix =>
        some ((some orig_ix, ret_query),
          { g with queries := qs, ix := (cur_ix + 1) % qs.length })

theorem positionOf_spec (p : RStr → Bool) :
    ∀ (l : List RStr) (j : Nat), positionOf p l = some j →
      (∃ a, l[j]? = some a ∧ p a = true)
        ∧ ∀ k, k < j → ∀ a, l[k]? = some a → p a = false
  | [], j => by simp [positionOf]
  | q :: qs, j => by
    intro h
    by_cases hp : p q
    · simp [positionOf, hp] at h
      subst h
      exact ⟨⟨q, by simp, hp⟩, fun k hk => by omega⟩
    · simp [positionOf, hp] at h
      obtain ⟨i, hi, rfl⟩ := h
      obtain ⟨⟨a, ha, hpa⟩, hmin⟩ := positionOf_spec p qs i hi
      refine ⟨⟨a, ?_, hpa⟩, ?_⟩
      · simpa using ha
      · intro k hk b hb
        cases k with
        | zero =>
          simp at hb
          subst hb
          simpa using hp
        | succ k =>
          have : k < i := by omega
          exact hmin k this b (by simpa using hb)

theorem positionOf_isSome_of_mem (a : RStr) :
    ∀ l : List RStr, a ∈ l → (positionOf (fun q => q = a) l).isSome = true
  | [], h => by simp at h
  | q :: qs, h => by
    by_cases hq : q = a
    · simp [positionOf, hq]
    · rcases List.mem_cons.1 h with rfl | hmem
      · exact absurd rfl hq
      · have hrec := positionOf_isSome_of_mem a qs hmem
        simpa [positionOf, hq] using hrec

theorem next_query_stable_index (g g' : FileSourceQueryGenerator)
    (s : List RStr) (oi : Option Nat) (q : RStr)
    (h : g.next_query s = some ((oi, q), g')) :
    ∃ j, oi = some j
      ∧ positionOf (fun x => x = q) g.queries_original_order = some j := by
  simp only [FileSourceQueryGenerator.next_query] at h
  set qs := if g.ix = 0 then s else g.queries with hqs
  by_cases hlen : qs.length = 0
  · rw [if_pos hlen] at h
    cases h
  · rw [if_neg hlen] at h
    rcases hget : qs[g.ix]? with _ | ret
    · rw [hget] at h
      cases h
    · simp only [hget] at h
      rcases hpos : positionOf (fun x => x = ret) g.queries_original_order with _ | j
      · simp only [hpos] at h
        cases h
      · simp only [hpos] at h
        rw [Option.some_inj, Prod.mk.injEq, Prod.mk.injEq] at h
        obtain ⟨⟨hoi, hq⟩, _⟩ := h
        subst hq
        exact ⟨j, hoi.symm, hpos⟩

/-- C7: whenever `next_query` returns a query text `q`, the stable index
it returns alongside is the position of the first occurrence of `q` in
the original-order catalog — and therefore any two calls (across any
reshuffles, on any generator sharing the catalog) that return the same
text return the same stable index. -/
theorem c7_stable_index_first_occurrence (g g' : FileSourceQueryGenerator)
    (s : List RStr) (oi : Option Nat) (q : RStr)
    (h : g.next_query s = some ((oi, q), g')) :
    (∃ j, oi = some j
        ∧ g.queries_original_order[j]? = some q
        ∧ ∀ k, k < j → g.queries_original_order[k]? ≠ some q)
      ∧ ∀ (g₂ g₂' : FileSourceQueryGenerator) (s₂ : List RStr) (oi₂ : Option Nat),
          g₂.queries_original_order = g.queries_original_order →
          g₂.next_query s₂ = some ((oi₂, q), g₂') → oi₂ = oi := by
  obtain ⟨j, rfl, hj⟩ := next_query_stable_index g g' s oi q h
  constructor
  · obtain ⟨⟨a, ha, hpa⟩, hmin⟩ := positionOf_spec _ _ _ hj
    have haq : a = q := by simpa using hpa
    subst haq
    refine ⟨j, rfl, ha, ?_⟩
    intro k hk hkq
    have := hmin k hk a hkq
    simp at this
  · intro g₂ g₂' s₂ oi₂ horig h₂
    obtain ⟨j₂, rfl, hj₂⟩ := next_query_stable_index g₂ g₂' s₂ oi₂ q h₂
    rw [horig, hj] at hj₂
    exact congrArg some (Option.some_inj.1 hj₂).symm

/-- Witness for C7 on a one-query catalog. -/
theorem c7_witness :
    ∃ j, (some 0 : Option Nat) = some j
      ∧ ([['a']] : List RStr)[j]? = some ['a']
      ∧ ∀ k, k < j → ([['a']] : List RStr)[k]? ≠ some ['a'] :=
  (c7_stable_index_first_occurrence ⟨[['a']], [['a']], 0⟩ ⟨[['a']], [['a']], 0⟩
    [['a']] (some 0) ['a'] (by rfl)).1

/-- C10: `FileSourceQueryGenerator::new` succeeds on a query file without
non-empty lines, producing an empty catalog, but the first `next_query`
call then panics (modelled as `none`: remainder by zero / index out of
bounds on the empty vector); and `next_query` is total whenever the
catalog is non-empty (given the generator's invariants: the working list
and the supplied shuffle are permutations of the catalog and the cursor
is in bounds). -/
theorem c10_empty_catalog_not_total :
    (∀ content : RStr, (rustLines content).filter (fun l => !l.isEmpty) = [] →
      (FileSourceQueryGenerator.new content).queries = []
        ∧ (FileSourceQueryGenerator.new content).next_query [] = none)
      ∧ ∀ (g : FileSourceQueryGenerator) (s : List RStr),
          g.queries ≠ [] → List.Perm s g.queries →
          List.Perm g.queries g.queries_original_order →
          g.ix < g.queries.length →
          (g.next_query s).isSome = true := by
  constructor
  · intro content hempty
    constructor
    · simp [FileSourceQueryGenerator.new, hempty]
    · simp [FileSourceQueryGenerator.new, FileSourceQueryGenerator.next_query, hempty]
  · intro g s hne hperm hpermo hix
    simp only [FileSourceQueryGenerator.next_query]
    have hqlen : (if g.ix = 0 then s else g.queries).length = g.queries.length := by
      by_cases h0 : g.ix = 0
      · rw [if_pos h0]
        exact hperm.length_eq
      · rw [if_neg h0]
    have hlen : ¬ ((if g.ix = 0 then s else g.queries).length = 0) := by
      rw [hqlen]
      simpa using hne
    rw [if_neg hlen]
    have hlt : g.ix < (if g.ix = 0 then s else g.queries).length := by
      rw [hqlen]
      exact hix
    have hret : (if g.ix = 0 then s else g.queries)[g.ix]?
        = some ((if g.ix = 0 then s else g.queries)[g.ix]) :=
      List.getElem?_eq_getElem hlt
    set ret := (if g.ix = 0 then s else g.queries)[g.ix] with hretdef
    rw [hret]
    have hmem1 : ret ∈ (if g.ix = 0 then s else g.queries) :=
      List.getElem_mem hlt
    have hmem2 : ret ∈ g.queries := by
      by_cases h0 : g.ix = 0
      · rw [if_pos h0] at hmem1
        exact hperm.mem_iff.1 hmem1
      · rwa [if_neg h0] at hmem1
    have hmem : ret ∈ g.queries_original_order := hpermo.mem_iff.1 hmem2
    obtain ⟨j, hj⟩ := Option.isSome_iff_exists.1 (positionOf_isSome_of_mem ret _ hmem)
    simp [hj]

/-- Witness for C10's totality clause on a one-query catalog. -/
theorem c10_witness :
    (FileSourceQueryGenerator.next_query ⟨[['a']], [['a']], 0⟩ [['a']]).isSome = true :=
  c10_empty_catalog_not_total.2 ⟨[['a']], [['a']], 0⟩ [['a']]
    (by simp) (List.Perm.refl _) (List.Perm.refl _) (by simp)

/-- The success/failure decision of `run` in `src/main.rs`, as a function
of what the supervisor observed, in the order the code checks them: the
optional start script's success (`none` when no durability subcommand is
configured), whether a kill-worker failure was received on the kill
channel before the run loop exited, the success of each CSV row write
(`w.serialize(..)?`, relevant only in stress mode with
`--output-per-query-qps-csv`), and each update worker's result
(`true` = `Ok`). Reader results are logged but never branch the outcome,
so they are an ignored argument. Returns `true` iff `run` returns
`Ok(())`, i.e. iff the process exits with status 0. -/
def runSucceeds (startScript : Option Bool) (updateResults : List Bool)
    (killFailureObserved : Bool) (readerResults : List Bool)
    (csvWrites : List Bool) : Bool :=
  if startScript = some false then false
  else if killFailureObserved then false
  else if csvWrites.any (fun okWrite => !okWrite) then false
  else updateResults.count false == 0

/-- Counterexample for C3: in a durability run whose start script fails,
`run` returns an error — exit status 1 — although no update worker and
no kill worker reported a failure, so the claimed equivalence is false. -/
theorem c3_counterexample :
    ¬ ∀ (startScript : Option Bool) (updateResults : List Bool)
        (killFailureObserved : Bool) (readerResults csvWrites : List Bool),
        (runSucceeds startScript updateResults killFailureObserved readerResults csvWrites
            = true
          ↔ (updateResults.count false = 0 ∧ killFailureObserved = false)) := by
  intro hclaim
  have h := (hclaim (some false) [] false [] []).mpr ⟨rfl, rfl⟩
  simp [runSucceeds] at h

/-- C3 (amended): provided the optional server-start script does not fail
and every CSV write succeeds, the exit status is 0 iff no update worker
failed and no kill-worker failure was observed; reader worker results
never influence the exit status. -/
theorem c3_amended_exit_status (startScript : Option Bool) (updateResults : List Bool)
    (killFailureObserved : Bool) (readerResults csvWrites : List Bool)
    (hstart : startScript ≠ some false)
    (hcsv : ∀ b ∈ csvWrites, b = true) :
    runSucceeds startScript updateResults killFailureObserved readerResults csvWrites = true
      ↔ (updateResults.count false = 0 ∧ killFailureObserved = false) := by
  unfold runSucceeds
  rw [if_neg hstart]
  have hcsv' : csvWrites.any (fun okWrite => !okWrite) = false := by
    rw [List.any_eq_false]
    intro b hb
    simp [hcsv b hb]
  rw [hcsv']
  cases killFailureObserved with
  | true => simp
  | false => simp [Nat.beq_eq]

/-- Witness for C3's amended statement: one successful writer, no kill
failure, a failed reader, one successful CSV write. -/
theorem c3_witness :
    runSucceeds none [true] false [false] [true] = true
      ↔ ([true].count false = 0 ∧ false = false) :=
  c3_amended_exit_status none [true] false [false] [true] (by simp) (by simp)

/-- One bucket's reduction at the end of `RandomReadWorker::execute`:
`avg_duration_secs = durations.sum / durations.len()` inverted,
`qps = 1.0 / avg_duration_secs`. The `f64` arithmetic on seconds is
modelled by exact rationals. -/
def bucketQps (durations : List ℚ) : ℚ :=
  1 / (durations.sum / (durations.length : ℚ))

/-- The reduction of the whole timing map into the per-query QPS map. -/
def reduceTimings (timings : List (Nat × List ℚ)) : List (Nat × ℚ) :=
  timings.map (fun entry => (entry.1, bucketQps entry.2))

/-- C4: for every latency bucket with recorded durations `d_1 … d_n`
(`n ≥ 1`), the QPS value reported for that bucket equals
`n / (d_1 + … + d_n)`. -/
theorem c4_qps_count_div_sum (timings : List (Nat × List ℚ)) (qid : Nat)
    (ds : List ℚ) (hmem : (qid, ds) ∈ timings) (hne : ds ≠ []) :
    bucketQps ds = (ds.length : ℚ) / ds.sum
      ∧ (qid, (ds.length : ℚ) / ds.sum) ∈ reduceTimings timings := by
  have heq : bucketQps ds = (ds.length : ℚ) / ds.sum := one_div_div _ _
  exact ⟨heq, List.mem_map.2 ⟨(qid, ds), hmem, by simp [heq]⟩⟩

/-- Witness for C4 on a one-bucket timing map. -/
theorem c4_witness :
    bucketQps [(2 : ℚ)] = (([(2 : ℚ)].length : ℚ) / ([(2 : ℚ)].sum))
      ∧ (0, (([(2 : ℚ)].length : ℚ) / ([(2 : ℚ)].sum)))
        ∈ reduceTimings [(0, [(2 : ℚ)])] :=
  c4_qps_count_div_sum [(0, [(2 : ℚ)])] 0 [(2 : ℚ)] (by simp) (by simp)
